import Mathlib

/-!
Verification of the labelserver repository (src/labelserver/{cache,config,index,main}.py)
against its natural-language specification.

Modelling conventions:
- Python values reachable from JSON (the label records) are modelled by the
  inductive type `PyVal`; Python floats are modelled as exact rationals `ℚ`
  (the claims under study concern structure and comparisons, not rounding).
- Fallible Python code (subscripts that may raise KeyError/TypeError,
  `label.get` on a non-dict, iteration over a non-iterable) is modelled in
  `Except Unit`: `.error ()` means the Python code raises an exception.
- Stateful code is modelled by explicit state passing; the `OrderedDict`
  LRU containers are association lists with the least-recently-used binding
  at the front and unique keys (Python dict keys are unique).
-/

namespace LabelServer

/-- A Python value as produced by `json.load`: None, bool, number, string,
list, or dict with string keys. -/
inductive PyVal where
  | none
  | bool (b : Bool)
  | num (q : ℚ)
  | str (s : String)
  | list (xs : List PyVal)
  | dict (entries : List (String × PyVal))

/-- Python truthiness (`if v:`): None and empty containers, `0`, `""` and
`False` are falsy, everything else truthy. -/
def PyVal.truthy : PyVal → Bool
  | .none => false
  | .bool b => b
  | .num q => decide (q ≠ 0)
  | .str s => decide (s ≠ "")
  | .list xs => !xs.isEmpty
  | .dict es => !es.isEmpty

/-- Association-list lookup with propositional key equality (first binding wins,
as in Python dicts, whose keys are unique anyway). -/
def alookup {α : Type} : List (String × α) → String → Option α
  | [], _ => Option.none
  | (k', v) :: rest, k => if k' = k then some v else alookup rest k

/-- Python `d.get(k)` on a dict: the value at `k`, or `None` when absent.
Calling `.get` on a non-dict raises `AttributeError`, modelled as an error. -/
def PyVal.attrGet : PyVal → String → Except Unit PyVal
  | .dict es, k =>
      match alookup es k with
      | some v => .ok v
      | Option.none => .ok .none
  | _, _ => .error ()

/-- Subscript `v[k]` with a string key: `KeyError` when the key is absent from a dict,
`TypeError` when `v` is not a dict. -/
def PyVal.item : PyVal → String → Except Unit PyVal
  | .dict es, k =>
      match alookup es k with
      | some v => .ok v
      | Option.none => .error ()
  | _, _ => .error ()

/-- Python iteration `for x in v`: lists yield their elements, strings their
characters, dicts their keys; other values raise `TypeError`. -/
def PyVal.iter : PyVal → Except Unit (List PyVal)
  | .list xs => .ok xs
  | .str s => .ok (s.data.map (fun c => .str (String.singleton c)))
  | .dict es => .ok (es.map (fun e => .str e.1))
  | _ => .error ()

/-- A value used as a coordinate in arithmetic/comparisons. Python bools act
as 0/1 in arithmetic. The model treats any other non-numeric coordinate as a
failure; in Python a string coordinate would instead flow into `min`/`max`
(possibly comparing strings) and fail later at R-tree insertion — no claim
under study depends on that corner. -/
def PyVal.asNum : PyVal → Except Unit ℚ
  | .num q => .ok q
  | .bool b => .ok (if b then 1 else 0)
  | _ => .error ()

/-- A bounding box (minX, minY, maxX, maxY); the source represents it as a
4-tuple of floats. -/
structure BBox where
  minX : ℚ
  minY : ℚ
  maxX : ℚ
  maxY : ℚ
deriving DecidableEq, Repr

/-- Closed-interval rectangle intersection, the semantics of the R-tree
library's `intersection` query (spec §8.7: "closed intervals"). -/
def BBox.intersects (a b : BBox) : Bool :=
  decide (a.minX ≤ b.maxX) && decide (b.minX ≤ a.maxX) &&
  decide (a.minY ≤ b.maxY) && decide (b.minY ≤ a.maxY)

/-- Python `min(x0 :: xs)`: the least element of a non-empty list. -/
def foldMin (x0 : ℚ) (xs : List ℚ) : ℚ := xs.foldl min x0

/-- Python `max(x0 :: xs)`: the greatest element of a non-empty list. -/
def foldMax (x0 : ℚ) (xs : List ℚ) : ℚ := xs.foldl max x0

/-- The inner loop of `_compute_bbox`'s polygon branch over one ring:
`for pt in ring: xs.append(pt['x']); ys.append(pt['y'])`. -/
def pointsOfRing : List PyVal → Except Unit (List (ℚ × ℚ))
  | [] => .ok []
  | pt :: rest => do
      let xv ← pt.item "x"
      let x ← xv.asNum
      let yv ← pt.item "y"
      let y ← yv.asNum
      let tail ← pointsOfRing rest
      .ok ((x, y) :: tail)

/-- The outer loop of `_compute_bbox`'s polygon branch:
`for ring in regions: for pt in ring: ...`. -/
def pointsOfRegions : List PyVal → Except Unit (List (ℚ × ℚ))
  | [] => .ok []
  | ring :: rest => do
      let pts ← ring.iter
      let head ← pointsOfRing pts
      let tail ← pointsOfRegions rest
      .ok (head ++ tail)

/-- Source `SpatialIndexManager._compute_bbox` (index.py 83-109). Checks the three
shape tags in order — polygon (`regions`), point (`position`), box
(`centre`+`size`) — under Python truthiness, uses only the first matching
shape, and returns `some bbox`, `Option.none` (Python `None`), or raises
(`.error ()`). -/
def computeBbox (label : PyVal) : Except Unit (Option BBox) := do
  let regions ← label.attrGet "regions"
  if regions.truthy then
    let rings ← regions.iter
    let pts ← pointsOfRegions rings
    match pts with
    | [] => .ok Option.none
    | (x0, y0) :: rest =>
        let xs := rest.map Prod.fst
        let ys := rest.map Prod.snd
        .ok (some ⟨foldMin x0 xs, foldMin y0 ys, foldMax x0 xs, foldMax y0 ys⟩)
  else
    let pos ← label.attrGet "position"
    if pos.truthy then
      let xv ← pos.item "x"
      let x ← xv.asNum
      let yv ← pos.item "y"
      let y ← yv.asNum
      .ok (some ⟨x, y, x, y⟩)
    else
      let centre ← label.attrGet "centre"
      let size ← label.attrGet "size"
      if centre.truthy && size.truthy then
        let sxv ← size.item "x"
        let sx ← sxv.asNum
        let syv ← size.item "y"
        let sy ← syv.asNum
        let cxv ← centre.item "x"
        let cx ← cxv.asNum
        let cyv ← centre.item "y"
        let cy ← cyv.asNum
        .ok (some ⟨cx - sx / 2, cy - sy / 2, cx + sx / 2, cy + sy / 2⟩)
      else
        .ok Option.none

/-! Spec-side geometry (§4.3). These definitions follow the spec's table and
are compared with `computeBbox`, which is translated from the source. -/

/-- Spec-side field access: the value at key `k` of a record, when present. -/
def sGet (label : PyVal) (k : String) : Option PyVal :=
  match label with
  | .dict es => alookup es k
  | _ => Option.none

/-- A `{x, y}` point as the spec's table uses it: a record with numeric
fields `x` and `y`. -/
def asXY (v : PyVal) : Option (ℚ × ℚ) :=
  match v with
  | .dict es =>
      match alookup es "x", alookup es "y" with
      | some (.num x), some (.num y) => some (x, y)
      | _, _ => Option.none
  | _ => Option.none

/-- A ring: a sequence of `{x, y}` points. -/
def asRingPts (v : PyVal) : Option (List (ℚ × ℚ)) :=
  match v with
  | .list pts => ptsAux pts
  | _ => Option.none
where
  ptsAux : List PyVal → Option (List (ℚ × ℚ))
    | [] => some []
    | p :: rest =>
        match asXY p, ptsAux rest with
        | some xy, some tail => some (xy :: tail)
        | _, _ => Option.none

/-- A `regions` value: a sequence of rings. -/
def asRegions (v : PyVal) : Option (List (List (ℚ × ℚ))) :=
  match v with
  | .list rings => ringsAux rings
  | _ => Option.none
where
  ringsAux : List PyVal → Option (List (List (ℚ × ℚ)))
    | [] => some []
    | r :: rest =>
        match asRingPts r, ringsAux rest with
        | some pts, some tail => some (pts :: tail)
        | _, _ => Option.none

/-- The polygon row of the §4.3 table: `(min(x), min(y), max(x), max(y))`
across all points in all rings; `None` if no points. -/
def polyBbox (pts : List (ℚ × ℚ)) : Option BBox :=
  match (pts.map Prod.fst).min?, (pts.map Prod.snd).min?,
        (pts.map Prod.fst).max?, (pts.map Prod.snd).max? with
  | some a, some b, some c, some d => some ⟨a, b, c, d⟩
  | _, _, _, _ => Option.none

/-- The box row of the §4.3 table: `centre` `{x,y}` plus `size` `{x,y}`
give `centre ± size/2`; otherwise (last row) `None`. -/
def specBoxRow (label : PyVal) : Option BBox :=
  match (sGet label "centre").bind asXY, (sGet label "size").bind asXY with
  | some (cx, cy), some (sx, sy) =>
      some ⟨cx - sx / 2, cy - sy / 2, cx + sx / 2, cy + sy / 2⟩
  | _, _ => Option.none

/-- The point row of the §4.3 table — `position` `{x,y}` gives
`(x, y, x, y)` — falling through to the box row. -/
def specPointOrBox (label : PyVal) : Option BBox :=
  match (sGet label "position").bind asXY with
  | some (x, y) => some ⟨x, y, x, y⟩
  | _ => specBoxRow label

/-- The §4.3 table, written from the spec's words: the three shape rows are
tried in order (polygon with a non-empty `regions`, point with `position`,
box with `centre` + `size`); ties in detection go to the earliest row;
otherwise `None`. -/
def specShapeBbox (label : PyVal) : Option BBox :=
  match (sGet label "regions").bind asRegions with
  | some (r :: rs) => polyBbox ((r :: rs).flatten)
  | _ => specPointOrBox label

/-- What `d.get(k)` returns on a dict: the stored value, or `None`. -/
def dget (es : List (String × PyVal)) (k : String) : PyVal :=
  match alookup es k with
  | some v => v
  | Option.none => .none

/-- Well-formedness of a label record's geometry fields: along the branch the
source's truthiness checks select, every field the branch reads has the shape
the §4.3 table expects (numbers where coordinates are expected). Records
matching no shape are well-formed (they produce `None`). -/
def wfLabel (label : PyVal) : Bool :=
  match label with
  | .dict es =>
      if (dget es "regions").truthy then (asRegions (dget es "regions")).isSome
      else if (dget es "position").truthy then (asXY (dget es "position")).isSome
      else if (dget es "centre").truthy && (dget es "size").truthy then
        (asXY (dget es "centre")).isSome && (asXY (dget es "size")).isSome
      else true
  | _ => false

/-! The in-memory spatial index tier (index.py). -/

/-- Remove every binding of `k` (Python `del d[k]` / the removal half of
`move_to_end`; keys are unique in an `OrderedDict`, so at most one binding
is ever removed). -/
def aerase {α : Type} (l : List (String × α)) (k : String) : List (String × α) :=
  l.filter (fun e => decide (e.1 ≠ k))

/-- Modelled from the spec: the R-tree of the external `rtree` library
(§9: the contract is `insert(id, rect)` / `intersection(rect) → ids`),
as the insertion-ordered sequence of inserted `(id, rect)` pairs. -/
abbrev RTree := List (Nat × BBox)

/-- Modelled from the spec: `rtree.intersection(q)` returns the ids of the
stored rectangles intersecting `q` under closed-interval intersection, in
insertion order (§8.7: returned order matches insertion order). -/
def rtreeIntersection (rt : RTree) (q : BBox) : List Nat :=
  (rt.filter (fun e => e.2.intersects q)).map Prod.fst

/-- The `LabelIndex` dataclass (index.py 13-21). -/
structure LabelIndex where
  blobPath : String
  labels : List PyVal
  rtree : RTree
  labelCount : Nat
  memoryEstimateMb : ℚ
  lastAccessed : ℚ

/-- Source line `labels = data.get('labels', data) if isinstance(data, dict) else data`
(index.py 57). -/
def extractLabels (data : PyVal) : PyVal :=
  match data with
  | .dict es =>
      match alookup es "labels" with
      | some v => v
      | Option.none => .dict es
  | _ => data

/-- The indexing loop of `_build_index` (index.py 60-63):
`for i, label in enumerate(labels): bbox = self._compute_bbox(label);
if bbox: idx.insert(i, bbox)`. A 4-tuple is always truthy, so `if bbox:`
tests that the result is not `None`. -/
def buildRtreeAux (i : Nat) : List PyVal → Except Unit RTree
  | [] => .ok []
  | l :: ls => do
      let b ← computeBbox l
      let rest ← buildRtreeAux (i + 1) ls
      match b with
      | some bb => .ok ((i, bb) :: rest)
      | Option.none => .ok rest

/-- A local annotation file as `_build_index` consumes it: the decoded JSON
document, the on-disk size, and whether the name ends in `.gz`. -/
structure LocalFile where
  data : PyVal
  sizeBytes : Nat
  isGz : Bool

/-- Source `SpatialIndexManager._build_index` (index.py 45-81): extract the label
sequence, build the R-tree, estimate memory from the file size on disk
(×8 for gzipped files, ×2 for plain ones, in MiB). -/
def buildIndex (blobPath : String) (file : LocalFile) (now : ℚ) :
    Except Unit LabelIndex := do
  let labelsVal := extractLabels file.data
  let labels ← labelsVal.iter
  let rt ← buildRtreeAux 0 labels
  let memMb : ℚ :=
    if file.isGz then (file.sizeBytes * 8 : ℚ) / (1024 * 1024)
    else (file.sizeBytes * 2 : ℚ) / (1024 * 1024)
  .ok { blobPath := blobPath, labels := labels, rtree := rt,
        labelCount := labels.length, memoryEstimateMb := memMb,
        lastAccessed := now }

/-- The `SpatialIndexManager` state (index.py 23-29): the two bounds and the
`OrderedDict` of resident indexes, least recently used first. -/
structure SIM where
  maxIndexes : Nat
  maxMemoryMb : ℚ
  indexes : List (String × LabelIndex)

/-- Source `sum(li.memory_estimate_mb for li in self._indexes.values())`. -/
def totalMem (l : List (String × LabelIndex)) : ℚ :=
  (l.map (fun e => e.2.memoryEstimateMb)).sum

/-- The `while` loop of `_evict_if_needed` (index.py 123-129): while the
count or memory bound is violated and an entry exists, drop the
least-recently-used (front) entry, keeping the running total in step. -/
def evictGo (maxIdx : Nat) (maxMem : ℚ) : List (String × LabelIndex) → ℚ →
    List (String × LabelIndex)
  | [], _ => []
  | e :: rest, total =>
      if rest.length + 1 > maxIdx ∨ total > maxMem then
        evictGo maxIdx maxMem rest (total - e.2.memoryEstimateMb)
      else e :: rest

/-- Source `SpatialIndexManager._evict_if_needed` (index.py 123-129). -/
def SIM.evictIfNeeded (st : SIM) : SIM :=
  { st with indexes := evictGo st.maxIndexes st.maxMemoryMb st.indexes (totalMem st.indexes) }

/-- Source `SpatialIndexManager.get_or_build` (index.py 31-43): on a hit, bump to
MRU and refresh `last_accessed`; otherwise build, insert as MRU, evict
synchronously, and return the built entry (even if eviction just removed
it). A build failure propagates and leaves the state unchanged. -/
def SIM.getOrBuild (st : SIM) (key : String) (file : LocalFile) (now : ℚ) :
    Except Unit (LabelIndex × SIM) :=
  match alookup st.indexes key with
  | some li =>
      let li' := { li with lastAccessed := now }
      .ok (li', { st with indexes := aerase st.indexes key ++ [(key, li')] })
  | Option.none => do
      let li ← buildIndex key file now
      let st' : SIM := { st with indexes := st.indexes ++ [(key, li)] }
      .ok (li, st'.evictIfNeeded)

/-- Source `SpatialIndexManager.query_bbox` (index.py 111-121): absent key yields
the empty list; otherwise bump to MRU, refresh `last_accessed`, and map the
R-tree intersection ids back to label records. -/
def SIM.queryBbox (st : SIM) (key : String) (q : BBox) (now : ℚ) :
    List PyVal × SIM :=
  match alookup st.indexes key with
  | Option.none => ([], st)
  | some li =>
      let li' := { li with lastAccessed := now }
      let st' : SIM := { st with indexes := aerase st.indexes key ++ [(key, li')] }
      ((rtreeIntersection li.rtree q).filterMap (fun i => li.labels[i]?), st')

/-- The invalidation endpoint's index half (main.py 161-162):
`if blob_path in indexes: del indexes[blob_path]`. -/
def SIM.invalidate (st : SIM) (key : String) : SIM :=
  { st with indexes := aerase st.indexes key }

/-- One public operation on the index tier. -/
inductive SOp where
  | build (key : String) (file : LocalFile) (now : ℚ)
  | query (key : String) (q : BBox) (now : ℚ)
  | invalidate (key : String)

/-- The state after one operation (a failed build leaves the state as it
was: the exception propagates before the insert). -/
def SIM.applyOp (st : SIM) : SOp → SIM
  | .build k f n =>
      match st.getOrBuild k f n with
      | .ok (_, st') => st'
      | .error _ => st
  | .query k q n => (st.queryBbox k q n).2
  | .invalidate k => st.invalidate k

/-- The state after a sequence of operations. -/
def SIM.applyOps (st : SIM) (ops : List SOp) : SIM :=
  ops.foldl SIM.applyOp st

/-- The two §4.2 bounds: entry count and aggregate memory estimate. -/
def SIM.boundsOk (st : SIM) : Prop :=
  st.indexes.length ≤ st.maxIndexes ∧ totalMem st.indexes ≤ st.maxMemoryMb

/-- Every resident entry's memory estimate is nonnegative (true of every
entry `_build_index` produces: file sizes are nonnegative). -/
def SIM.memsNonneg (st : SIM) : Prop :=
  ∀ e ∈ st.indexes, 0 ≤ e.2.memoryEstimateMb

/-! The on-disk blob cache tier (cache.py). The filesystem is modelled as a
finite map from path to file size; blob downloads are external, so each
`get` carries the outcome the remote store produces. Concurrency (the
per-key asyncio locks) is collapsed to the sequential interleaving the
claims quantify over; the double-check after lock acquisition coincides
with the first check in that setting. -/

/-- A filesystem: path ↦ size in bytes. -/
abbrev FS := List (String × Nat)

/-- Python `os.path.exists`. -/
def fsExists (fs : FS) (p : String) : Bool := (alookup fs p).isSome

/-- Create or overwrite a file (`open(p, "wb")` + writes: final size `n`). -/
def fsWrite (fs : FS) (p : String) (n : Nat) : FS := (p, n) :: aerase fs p

/-- Python `os.remove`, when the file exists (callers model the missing-file
`OSError` separately). -/
def fsErase (fs : FS) (p : String) : FS := aerase fs p

/-- Python `os.rename(src, dst)`: atomic; overwrites `dst`; no-op here when `src`
is absent (that case never arises in the modelled paths). -/
def fsRename (fs : FS) (src dst : String) : FS :=
  match alookup fs src with
  | some n => fsWrite (fsErase fs src) dst n
  | Option.none => fs

/-- The `LabelBlobCache` state (cache.py 14-30): the configured directory and
byte bound, the `OrderedDict` tracking `path -> size` (least recently used
first), and the filesystem it manages. -/
structure BlobCache where
  cacheDir : String
  maxBytes : Nat
  files : List (String × Nat)
  fs : FS

/-- Source `self._local_path(blob_path) = os.path.join(self.cache_dir, blob_path)`. -/
def BlobCache.localPath (st : BlobCache) (key : String) : String :=
  st.cacheDir ++ "/" ++ key

/-- Source `sum(self._files.values())`. -/
def sumSizes (l : List (String × Nat)) : Nat := (l.map Prod.snd).sum

/-- Source `self._files.move_to_end(key)` guarded by `if key in self._files`. -/
def bumpIfTracked (l : List (String × Nat)) (k : String) : List (String × Nat) :=
  match alookup l k with
  | some v => aerase l k ++ [(k, v)]
  | Option.none => l

/-- Python dict assignment `self._files[key] = n`: update in place when
present, append otherwise. -/
def setEntry (l : List (String × Nat)) (k : String) (n : Nat) : List (String × Nat) :=
  if (alookup l k).isSome then l.map (fun e => if e.1 = k then (k, n) else e)
  else l ++ [(k, n)]

/-- The `while` loop of `LabelBlobCache._evict_if_needed` (cache.py 96-115):
while over budget and non-empty, delete the oldest entry's file (a failed
delete is swallowed) and always forget its tracking record. Empty-parent
directory pruning only touches directories, which the model does not track. -/
def bevictGo (cacheDir : String) (maxB : Nat) :
    List (String × Nat) → Nat → FS → List (String × Nat) × FS
  | [], _, fs => ([], fs)
  | (k, n) :: rest, total, fs =>
      if total > maxB then
        bevictGo cacheDir maxB rest (total - n) (fsErase fs (cacheDir ++ "/" ++ k))
      else ((k, n) :: rest, fs)

/-- Source `LabelBlobCache._evict_if_needed` (cache.py 96-115). -/
def BlobCache.evictIfNeeded (st : BlobCache) : BlobCache :=
  let r := bevictGo st.cacheDir st.maxBytes st.files (sumSizes st.files) st.fs
  { st with files := r.1, fs := r.2 }

/-- What the remote store does for one download attempt. A failure (any
transport or I/O error) happens after `open(tmp, "wb")` has created the
temp file, which is left holding `partialSize` bytes; a success streams
`size` bytes into the temp file. -/
inductive DL where
  | success (size : Nat)
  | failure (partialSize : Nat)

/-- Source `LabelBlobCache.get` (cache.py 60-85) with `_download` (cache.py 87-94)
inlined: fast path returns the existing file after an MRU bump; otherwise
stream into `local + ".tmp"`, rename onto `local`, register `(key, size)`
as MRU, and evict synchronously. A failed download leaves the temp file
behind (nothing deletes it) and propagates the error without touching the
tracking state. -/
def BlobCache.get (st : BlobCache) (key : String) (dl : DL) :
    Except Unit String × BlobCache :=
  let lp := st.localPath key
  if fsExists st.fs lp then
    (.ok lp, { st with files := bumpIfTracked st.files key })
  else
    match dl with
    | .failure p =>
        (.error (), { st with fs := fsWrite st.fs (lp ++ ".tmp") p })
    | .success n =>
        let fs₂ := fsRename (fsWrite st.fs (lp ++ ".tmp") n) (lp ++ ".tmp") lp
        let files₂ := bumpIfTracked (setEntry st.files key n) key
        let st' : BlobCache := { st with fs := fs₂, files := files₂ }
        (.ok lp, st'.evictIfNeeded)

/-- Source `LabelBlobCache.remove` (cache.py 117-124), as written: when the file
exists, `os.remove` succeeds and the tracking record is then dropped; when
it is missing, `os.remove` raises `OSError`, the `except` swallows it, and
— the deletion of the tracking record being inside the `try`, after the
raise — the key stays tracked. -/
def BlobCache.remove (st : BlobCache) (key : String) : BlobCache :=
  let lp := st.localPath key
  if fsExists st.fs lp then
    { st with fs := fsErase st.fs lp,
              files := if (alookup st.files key).isSome then aerase st.files key
                       else st.files }
  else st

/-- One public operation on the disk tier. -/
inductive BOp where
  | get (key : String) (dl : DL)
  | remove (key : String)

/-- The state after one operation (`get`'s return value dropped). -/
def BlobCache.applyOp (st : BlobCache) : BOp → BlobCache
  | .get k dl => (st.get k dl).2
  | .remove k => st.remove k

/-- The state after a sequence of operations. -/
def BlobCache.applyOps (st : BlobCache) (ops : List BOp) : BlobCache :=
  ops.foldl BlobCache.applyOp st

/-! The HTTP layer (main.py): bbox parsing in `get_labels`, and the
authentication middleware. -/

/-- A Python float as far as the bbox-parsing claim cares: a finite value
(modelled exactly as a rational) or one of the non-finite values `float()`
also accepts. -/
inductive PyFloat where
  | finite (q : ℚ)
  | nan
  | inf
  | ninf
deriving DecidableEq, Repr

/-- Whether a parsed float is finite (`math.isfinite`). -/
def PyFloat.isFinite : PyFloat → Bool
  | .finite _ => true
  | _ => false

/-- Whitespace `float()` strips from both ends of its argument. -/
def isWsChar (c : Char) : Bool :=
  c = ' ' || c = '\t' || c = '\n' || c = '\r' || c = '\x0b' || c = '\x0c'

/-- The value of a digit run, most significant first. -/
def digitsVal (ds : List Char) : Nat :=
  ds.foldl (fun a c => a * 10 + (c.toNat - 48)) 0

/-- Scale a rational by a signed power of ten (the exponent part of a float
literal). -/
def scalePow10 (q : ℚ) (e : Int) : ℚ :=
  if 0 ≤ e then q * (10 : ℚ) ^ e.toNat else q / (10 : ℚ) ^ (-e).toNat

/-- The decimal part of Python's `float()` grammar, after sign removal:
`digits [. digits] [ (e|E) [sign] digits ]` with at least one mantissa
digit; the value is exact (the model ignores binary-float rounding, which
no claim under study depends on). Underscore digit separators are omitted
from the model. -/
def parseDecimal (cs : List Char) : Option ℚ :=
  let ip := cs.takeWhile Char.isDigit
  let r₁ := cs.dropWhile Char.isDigit
  let step : Option (ℚ × List Char) :=
    match r₁ with
    | '.' :: rest =>
        let fp := rest.takeWhile Char.isDigit
        let r₂ := rest.dropWhile Char.isDigit
        if ip.isEmpty && fp.isEmpty then Option.none
        else some ((digitsVal ip : ℚ) + (digitsVal fp : ℚ) / (10 : ℚ) ^ fp.length, r₂)
    | _ =>
        if ip.isEmpty then Option.none
        else some ((digitsVal ip : ℚ), r₁)
  match step with
  | Option.none => Option.none
  | some (mant, rest) =>
      match rest with
      | [] => some mant
      | e :: tail =>
          if e = 'e' || e = 'E' then
            let (negE, tail') :=
              match tail with
              | '+' :: t => (false, t)
              | '-' :: t => (true, t)
              | t => (false, t)
            let eds := tail'.takeWhile Char.isDigit
            let r₃ := tail'.dropWhile Char.isDigit
            if eds.isEmpty || !r₃.isEmpty then Option.none
            else some (scalePow10 mant (if negE then -(digitsVal eds : Int) else (digitsVal eds : Int)))
          else Option.none

/-- Python `float(s)`: strip surrounding whitespace, take an optional sign,
then accept `nan`, `inf`, `infinity` (case-insensitively) or a decimal
literal; `None` models the `ValueError` raise. -/
def pyFloatOfString (s : String) : Option PyFloat :=
  let cs := (((s.data.dropWhile isWsChar).reverse).dropWhile isWsChar).reverse
  match cs with
  | [] => Option.none
  | _ =>
      let (neg, cs') :=
        match cs with
        | '+' :: r => (false, r)
        | '-' :: r => (true, r)
        | r => (false, r)
      let lower := cs'.map Char.toLower
      if lower = "infinity".data || lower = "inf".data then
        some (if neg then .ninf else .inf)
      else if lower = "nan".data then some .nan
      else (parseDecimal cs').map (fun q => .finite (if neg then -q else q))

/-- Python `s.split(",")`: split on every comma; no merging of empty
pieces, so `"".split(",") == [""]`. -/
def splitOnComma (cs : List Char) : List (List Char) :=
  splitAux cs []
where
  splitAux : List Char → List Char → List (List Char)
    | [], acc => [acc.reverse]
    | c :: rest, acc =>
        if c = ',' then acc.reverse :: splitAux rest []
        else splitAux rest (c :: acc)

/-- Source `[float(x) for x in bbox.split(",")]`: `None` when any part raises
`ValueError`. -/
def parseBboxParts (s : String) : Option (List PyFloat) :=
  partsAux (splitOnComma s.data)
where
  partsAux : List (List Char) → Option (List PyFloat)
    | [] => some []
    | p :: rest =>
        match pyFloatOfString (String.mk p), partsAux rest with
        | some f, some tail => some (f :: tail)
        | _, _ => Option.none

/-- The bbox-handling step of `get_labels` (main.py 123-129): parse the
comma-separated parts as floats, `assert len(parts) == 4`; a `ValueError`
or `AssertionError` becomes the 400 response (`.error ()`), anything else
proceeds with the parsed values. -/
def getLabelsBboxStep (s : String) : Except Unit (List PyFloat) :=
  match parseBboxParts s with
  | Option.none => .error ()
  | some parts => if parts.length = 4 then .ok parts else .error ()

/-- What `pyjwt.decode(token, jwt_secret, algorithms=["HS256"],
options=\x7brequire: [exp, sub, iss]\x7d)` can do, modelled abstractly (the
library is external): return a payload, raise `ExpiredSignatureError`, or
raise some other `InvalidTokenError` (which includes missing required
claims and bad signatures). -/
inductive JwtOutcome where
  | payload (iss : String) (sub : String) (email : String)
  | expired
  | invalid

/-- The middleware's verdict: forward the request or answer 401. -/
inductive AuthResult where
  | pass
  | unauthorized (msg : String)
deriving DecidableEq, Repr

/-- Source `AuthMiddleware.OPEN_PATHS` (main.py 29). -/
def openPaths : List String := ["/health", "/docs", "/openapi.json"]

/-- Source `auth.startswith("Bearer ")`, written structurally over the characters
so that it evaluates by reduction. -/
def hasBearer (authHeader : String) : Bool :=
  leading "Bearer ".data authHeader.data
where
  leading : List Char → List Char → Bool
    | [], _ => true
    | _ :: _, [] => false
    | p :: ps, c :: cs => p = c && leading ps cs

/-- Source `auth[7:]`: the bearer token after the `"Bearer "` marker. -/
def bearerToken (authHeader : String) : String :=
  String.mk (authHeader.data.drop 7)

/-- Source `AuthMiddleware.dispatch` (main.py 31-73). `decode` is the outcome of
JWT validation for a given bearer token under the configured secret;
`authHeader` is `request.headers.get("authorization", "")` and
`tokenParam` is `request.query_params.get("token", "")`. -/
def authDispatch (apiKey jwtSecret : String) (decode : String → JwtOutcome)
    (path authHeader tokenParam : String) : AuthResult :=
  if jwtSecret = "" ∧ apiKey = "" then .pass
  else if path ∈ openPaths then .pass
  else
    let fallback : AuthResult :=
      if apiKey ≠ "" ∧ tokenParam = apiKey then .pass
      else .unauthorized "Unauthorized"
    if hasBearer authHeader then
      let token := bearerToken authHeader
      if apiKey ≠ "" ∧ token = apiKey then .pass
      else if jwtSecret ≠ "" then
        match decode token with
        | .expired => .unauthorized "Token expired"
        | .payload iss _ _ =>
            if iss ≠ "azure-studio" then .unauthorized "Invalid token issuer"
            else .pass
        | .invalid => fallback
      else fallback
    else fallback

/-- The spec's characterization of a query result (§8.7): exactly the labels
whose stored bounding box intersects the query box (closed intervals), in
insertion (source) order. -/
def intersectingLabels (labels : List PyVal) (q : BBox) : List PyVal :=
  labels.filter (fun l =>
    match computeBbox l with
    | .ok (some b) => b.intersects q
    | _ => false)

/-! Helper lemmas about the geometry extractor. -/

theorem asXY_truthy {v : PyVal} {xy : ℚ × ℚ} (h : asXY v = some xy) :
    v.truthy = true := by
  cases v with
  | dict es =>
      cases es with
      | nil => simp [asXY, alookup] at h
      | cons e rest => simp [PyVal.truthy]
  | none => simp [asXY] at h
  | bool b => simp [asXY] at h
  | num q => simp [asXY] at h
  | str s => simp [asXY] at h
  | list xs => simp [asXY] at h

theorem asRegions_of_not_truthy {v : PyVal} (h : v.truthy = false) :
    asRegions v = Option.none ∨ asRegions v = some [] := by
  cases v with
  | list xs =>
      cases xs with
      | nil => right; rfl
      | cons x rest => simp [PyVal.truthy] at h
  | none => left; rfl
  | bool b => left; rfl
  | num q => left; rfl
  | str s => left; rfl
  | dict es => left; rfl

theorem asXY_elim {v : PyVal} {xy : ℚ × ℚ} (h : asXY v = some xy) :
    ∃ es, v = .dict es ∧ alookup es "x" = some (.num xy.1) ∧
      alookup es "y" = some (.num xy.2) := by
  cases v with
  | dict es =>
      refine ⟨es, rfl, ?_⟩
      revert h
      simp only [asXY]
      cases hx : alookup es "x" with
      | none => intro h; exact Option.noConfusion h
      | some xv =>
          cases hy : alookup es "y" with
          | none => cases xv <;> (intro h; exact Option.noConfusion h)
          | some yv =>
              cases xv <;> cases yv <;> intro h <;>
                try exact Option.noConfusion h
              case num.num qx qy =>
                injection h with h'
                subst h'
                exact ⟨rfl, rfl⟩
  | none => simp [asXY] at h
  | bool b => simp [asXY] at h
  | num q => simp [asXY] at h
  | str s => simp [asXY] at h
  | list xs => simp [asXY] at h

theorem pointsOfRing_of_ptsAux {ps : List PyVal} {pts : List (ℚ × ℚ)}
    (h : asRingPts.ptsAux ps = some pts) : pointsOfRing ps = .ok pts := by
  induction ps generalizing pts with
  | nil =>
      rw [asRingPts.ptsAux] at h
      injection h with h'
      subst h'
      rfl
  | cons p rest ih =>
      rw [asRingPts.ptsAux] at h
      cases hxy : asXY p with
      | none => rw [hxy] at h; exact absurd h (by simp)
      | some xy =>
          rw [hxy] at h
          cases htail : asRingPts.ptsAux rest with
          | none => rw [htail] at h; exact absurd h (by simp)
          | some tail =>
              rw [htail] at h
              injection h with h'
              subst h'
              obtain ⟨pes, hp, hx, hy⟩ := asXY_elim hxy
              subst hp
              simp [pointsOfRing, PyVal.item, hx, hy, PyVal.asNum, bind,
                Except.bind, ih htail]

theorem pointsOfRegions_of_ringsAux {rings : List PyVal} {rr : List (List (ℚ × ℚ))}
    (h : asRegions.ringsAux rings = some rr) :
    pointsOfRegions rings = .ok rr.flatten := by
  induction rings generalizing rr with
  | nil =>
      rw [asRegions.ringsAux] at h
      injection h with h'
      subst h'
      rfl
  | cons r rest ih =>
      rw [asRegions.ringsAux] at h
      cases hr : asRingPts r with
      | none => rw [hr] at h; exact absurd h (by simp)
      | some pts =>
          rw [hr] at h
          cases htail : asRegions.ringsAux rest with
          | none => rw [htail] at h; exact absurd h (by simp)
          | some tail =>
              rw [htail] at h
              injection h with h'
              subst h'
              obtain ⟨ps, hps, haux⟩ : ∃ ps, r = PyVal.list ps ∧ asRingPts.ptsAux ps = some pts := by
                cases r with
                | list ps => exact ⟨ps, rfl, by simpa [asRingPts] using hr⟩
                | none => simp [asRingPts] at hr
                | bool b => simp [asRingPts] at hr
                | num q => simp [asRingPts] at hr
                | str s => simp [asRingPts] at hr
                | dict es => simp [asRingPts] at hr
              subst hps
              simp [pointsOfRegions, PyVal.iter, pointsOfRing_of_ptsAux haux,
                bind, Except.bind, ih htail]

theorem attrGet_dict (es : List (String × PyVal)) (k : String) :
    PyVal.attrGet (.dict es) k = .ok (dget es k) := by
  cases h : alookup es k <;> simp [PyVal.attrGet, dget, h]

theorem asXY_of_not_truthy {v : PyVal} (h : v.truthy = false) :
    asXY v = Option.none := by
  cases hxy : asXY v with
  | none => rfl
  | some xy => rw [asXY_truthy hxy] at h; cases h

theorem asRegions_elim {v : PyVal} {rr : List (List (ℚ × ℚ))}
    (h : asRegions v = some rr) :
    ∃ rings, v = .list rings ∧ asRegions.ringsAux rings = some rr := by
  cases v with
  | list rings => exact ⟨rings, rfl, by simpa [asRegions] using h⟩
  | none => simp [asRegions] at h
  | bool b => simp [asRegions] at h
  | num q => simp [asRegions] at h
  | str s => simp [asRegions] at h
  | dict es => simp [asRegions] at h

theorem alookup_of_dget_ne_none {es : List (String × PyVal)} {k : String}
    (h : dget es k ≠ .none) : alookup es k = some (dget es k) := by
  revert h
  cases hl : alookup es k with
  | none => intro h; exact absurd (by simp [dget, hl]) h
  | some v => intro h; simp [dget, hl]

/-- When the `regions` value is falsy, the spec's polygon row does not match. -/
theorem spec_no_poly {es : List (String × PyVal)}
    (hR : (dget es "regions").truthy = false) :
    specShapeBbox (.dict es) = specPointOrBox (.dict es) := by
  rw [specShapeBbox]
  cases hl : alookup es "regions" with
  | none => simp [sGet, hl]
  | some v =>
      have hv : v.truthy = false := by
        have : v = dget es "regions" := by simp [dget, hl]
        rw [this]; exact hR
      rcases asRegions_of_not_truthy hv with hn | he
      · simp [sGet, hl, hn]
      · simp [sGet, hl, he]

/-- When the `position` value is falsy, the spec's point row does not match. -/
theorem spec_no_point {es : List (String × PyVal)}
    (hP : (dget es "position").truthy = false) :
    specPointOrBox (.dict es) = specBoxRow (.dict es) := by
  rw [specPointOrBox]
  cases hl : alookup es "position" with
  | none => simp [sGet, hl]
  | some v =>
      have hv : v.truthy = false := by
        have : v = dget es "position" := by simp [dget, hl]
        rw [this]; exact hP
      simp [sGet, hl, asXY_of_not_truthy hv]

theorem sget_bind_asXY_none {es : List (String × PyVal)} {k : String}
    (h : (dget es k).truthy = false) :
    (sGet (.dict es) k).bind asXY = Option.none := by
  cases hl : alookup es k with
  | none => simp [sGet, hl]
  | some v =>
      have hv : v.truthy = false := by
        have : v = dget es k := by simp [dget, hl]
        rw [this]; exact h
      simp [sGet, hl, asXY_of_not_truthy hv]

theorem sget_bind_asXY_some {es : List (String × PyVal)} {k : String} {xy : ℚ × ℚ}
    (h : asXY (dget es k) = some xy) :
    (sGet (.dict es) k).bind asXY = some xy := by
  obtain ⟨pes, hpes, -, -⟩ := asXY_elim h
  rw [sGet, alookup_of_dget_ne_none (by rw [hpes]; intro hc; cases hc)]
  simpa using h

/-- C4 (amended): `_compute_bbox` is pure; on every label record whose
geometry fields are well-formed (`wfLabel`) it does not raise, and it
returns exactly the bounding box given by the §4.3 table (`specShapeBbox`):
shapes checked in the order polygon, point, box; first match wins;
otherwise `None`. (On malformed records it can raise — see the
counterexample.) -/
theorem computeBbox_matches_spec_table (label : PyVal) (h : wfLabel label = true) :
    computeBbox label = .ok (specShapeBbox label) := by
  cases label with
  | none => exact absurd h (by simp [wfLabel])
  | bool b => exact absurd h (by simp [wfLabel])
  | num q => exact absurd h (by simp [wfLabel])
  | str s => exact absurd h (by simp [wfLabel])
  | list xs => exact absurd h (by simp [wfLabel])
  | dict es =>
      rw [wfLabel] at h
      simp only [computeBbox, attrGet_dict, bind, Except.bind]
      cases hR : (dget es "regions").truthy with
      | true =>
          rw [if_pos hR] at h
          simp only [hR, if_true]
          obtain ⟨rr, hrr⟩ := Option.isSome_iff_exists.mp h
          obtain ⟨rings, hv, haux⟩ := asRegions_elim hrr
          rw [hv]
          simp only [PyVal.iter, pointsOfRegions_of_ringsAux haux]
          have hspec : specShapeBbox (.dict es) = polyBbox rr.flatten := by
            rw [specShapeBbox, sGet,
              @alookup_of_dget_ne_none es "regions" (by rw [hv]; intro hc; cases hc),
              hv]
            have hrr' : asRegions (.list rings) = some rr := by
              simpa [asRegions] using haux
            simp only [Option.bind, hrr']
            have hne : rings ≠ [] := by
              intro hnil
              rw [hv, hnil] at hR
              simp [PyVal.truthy] at hR
            obtain ⟨r0, rs0, hcons⟩ := List.exists_cons_of_ne_nil hne
            subst hcons
            rw [asRegions.ringsAux] at haux
            cases hr0 : asRingPts r0 with
            | none => rw [hr0] at haux; exact absurd haux (by simp)
            | some pts =>
                rw [hr0] at haux
                cases ht : asRegions.ringsAux rs0 with
                | none => rw [ht] at haux; exact absurd haux (by simp)
                | some tail =>
                    rw [ht] at haux
                    injection haux with h'
                    subst h'
                    rfl
          rw [hspec]
          cases hfl : rr.flatten with
          | nil => simp [polyBbox, List.min?, List.max?]
          | cons p rest =>
              cases p with
              | mk x0 y0 => simp [polyBbox, List.min?, List.max?, foldMin, foldMax]
      | false =>
          rw [if_neg (by simp [hR])] at h
          simp only [hR, if_false, Bool.false_eq_true]
          rw [spec_no_poly hR]
          cases hP : (dget es "position").truthy with
          | true =>
              rw [if_pos hP] at h
              simp only [hP, if_true]
              obtain ⟨xy, hxy⟩ := Option.isSome_iff_exists.mp h
              obtain ⟨pes, hpes, hx, hy⟩ := asXY_elim hxy
              rw [hpes]
              simp only [PyVal.item, hx, hy, PyVal.asNum]
              rw [specPointOrBox, sget_bind_asXY_some hxy]
          | false =>
              rw [if_neg (by simp [hP])] at h
              simp only [hP, if_false, Bool.false_eq_true]
              rw [spec_no_point hP]
              cases hC : (dget es "centre").truthy with
              | false =>
                  simp only [hC, Bool.false_and, if_false, Bool.false_eq_true]
                  rw [specBoxRow, sget_bind_asXY_none hC]
              | true =>
                  cases hS : (dget es "size").truthy with
                  | false =>
                      simp only [hC, hS, Bool.true_and, if_false, Bool.false_eq_true]
                      rw [specBoxRow, sget_bind_asXY_none hS]
                      cases (sGet (.dict es) "centre").bind asXY with
                      | none => rfl
                      | some c => cases c; rfl
                  | true =>
                      rw [if_pos (by simp [hC, hS])] at h
                      simp only [hC, hS, Bool.true_and, if_true]
                      obtain ⟨hcs, hss⟩ := by simpa using h
                      obtain ⟨cxy, hcxy⟩ := Option.isSome_iff_exists.mp hcs
                      obtain ⟨sxy, hsxy⟩ := Option.isSome_iff_exists.mp hss
                      obtain ⟨ces, hces, hcx, hcy⟩ := asXY_elim hcxy
                      obtain ⟨ses, hses, hsx, hsy⟩ := asXY_elim hsxy
                      rw [hces, hses]
                      simp only [PyVal.item, hcx, hcy, hsx, hsy, PyVal.asNum]
                      rw [specBoxRow, sget_bind_asXY_some hcxy, sget_bind_asXY_some hsxy]

/-- C4 (counterexample): geometry extraction is not total. On the record
`\x7b"regions": [[\x7b"x": 1\x7d]]\x7d` — a polygon whose point lacks the `y`
field — `_compute_bbox` raises `KeyError` instead of returning a bbox or
`None`, refuting "never fails". -/
theorem computeBbox_not_total :
    computeBbox (.dict [("regions", .list [.list [.dict [("x", .num 1)]]])]) =
      .error () := rfl

/-- Witness for the amended C4 theorem at a concrete point record. -/
theorem computeBbox_matches_spec_table_witness :
    wfLabel (.dict [("position", .dict [("x", .num 3), ("y", .num 4)])]) = true ∧
    computeBbox (.dict [("position", .dict [("x", .num 3), ("y", .num 4)])]) =
      .ok (specShapeBbox (.dict [("position", .dict [("x", .num 3), ("y", .num 4)])])) :=
  ⟨rfl, computeBbox_matches_spec_table _ rfl⟩

/-! Association-list lemmas shared by the two LRU tiers. -/

theorem alookup_aerase_self {α : Type} (l : List (String × α)) (k : String) :
    alookup (aerase l k) k = Option.none := by
  induction l with
  | nil => rfl
  | cons e rest ih =>
      obtain ⟨k', v⟩ := e
      by_cases h : k' = k
      · simpa [aerase, h] using ih
      · simpa [aerase, alookup, h] using ih

theorem alookup_aerase_ne {α : Type} (l : List (String × α)) {k k' : String}
    (h : k' ≠ k) : alookup (aerase l k) k' = alookup l k' := by
  induction l with
  | nil => rfl
  | cons e rest ih =>
      obtain ⟨k₀, v⟩ := e
      by_cases h0 : k₀ = k
      · subst h0
        have hne : ¬k₀ = k' := fun hc => h hc.symm
        simp only [aerase, List.filter_cons] at *
        rw [if_neg (by simp), alookup, if_neg hne]
        exact ih
      · simp only [aerase, List.filter_cons] at *
        rw [if_pos (by simpa using h0)]
        by_cases h1 : k₀ = k'
        · simp [alookup, h1]
        · rw [alookup, if_neg h1, alookup, if_neg h1]
          exact ih

theorem alookup_append_of_none {α : Type} {l₁ : List (String × α)} {k : String}
    (h : alookup l₁ k = Option.none) (l₂ : List (String × α)) :
    alookup (l₁ ++ l₂) k = alookup l₂ k := by
  induction l₁ with
  | nil => rfl
  | cons e rest ih =>
      obtain ⟨k', v⟩ := e
      rw [alookup] at h
      by_cases he : k' = k
      · rw [if_pos he] at h; cases h
      · rw [if_neg he] at h
        rw [List.cons_append, alookup, if_neg he]
        exact ih h

theorem alookup_bump {α : Type} (l : List (String × α)) (k : String) (v : α) :
    alookup (aerase l k ++ [(k, v)]) k = some v := by
  rw [alookup_append_of_none (alookup_aerase_self l k), alookup, if_pos rfl]

theorem mem_of_alookup {α : Type} {l : List (String × α)} {k : String} {v : α}
    (h : alookup l k = some v) : (k, v) ∈ l := by
  induction l with
  | nil => cases h
  | cons e rest ih =>
      obtain ⟨k', v'⟩ := e
      rw [alookup] at h
      by_cases he : k' = k
      · rw [if_pos he] at h
        injection h with h'
        subst he; subst h'
        exact List.mem_cons_self _ _
      · rw [if_neg he] at h
        exact List.mem_cons_of_mem _ (ih h)

theorem aerase_sublist {α : Type} (l : List (String × α)) (k : String) :
    (aerase l k).Sublist l :=
  List.filter_sublist l

/-! R-tree build/query lemmas for C1. -/

theorem rtree_filterMap_eq (q : BBox) :
    ∀ (labels pre : List PyVal) (rt : RTree),
      buildRtreeAux pre.length labels = .ok rt →
      (rtreeIntersection rt q).filterMap (fun i => (pre ++ labels)[i]?) =
        intersectingLabels labels q := by
  intro labels
  induction labels with
  | nil =>
      intro pre rt h
      rw [buildRtreeAux] at h
      injection h with h'
      subst h'
      rfl
  | cons l ls ih =>
      intro pre rt h
      rw [buildRtreeAux] at h
      cases hb : computeBbox l with
      | error e => rw [hb] at h; exact absurd h (by simp [bind, Except.bind])
      | ok b =>
          rw [hb] at h
          cases hrest : buildRtreeAux (pre.length + 1) ls with
          | error e =>
              rw [hrest] at h
              exact absurd h (by simp [bind, Except.bind])
          | ok rts =>
              rw [hrest] at h
              have hlen : (pre ++ [l]).length = pre.length + 1 := by simp
              have ih' := ih (pre ++ [l]) rts (by rw [hlen]; exact hrest)
              rw [List.append_assoc] at ih'
              simp only [List.singleton_append] at ih'
              have hget : (pre ++ l :: ls)[pre.length]? = some l := by
                rw [List.getElem?_append_right (Nat.le_refl _)]
                simp
              cases b with
              | none =>
                  simp only [bind, Except.bind] at h
                  injection h with h'
                  subst h'
                  rw [ih']
                  simp [intersectingLabels, List.filter_cons, hb]
              | some bb =>
                  simp only [bind, Except.bind] at h
                  injection h with h'
                  subst h'
                  cases hint : bb.intersects q with
                  | true =>
                      have hrt : rtreeIntersection ((pre.length, bb) :: rts) q =
                          pre.length :: rtreeIntersection rts q := by
                        simp [rtreeIntersection, List.filter_cons, hint]
                      rw [hrt]
                      simp only [List.filterMap_cons, hget, ih']
                      simp [intersectingLabels, List.filter_cons, hb, hint]
                  | false =>
                      have hrt : rtreeIntersection ((pre.length, bb) :: rts) q =
                          rtreeIntersection rts q := by
                        simp [rtreeIntersection, List.filter_cons, hint]
                      rw [hrt, ih']
                      simp [intersectingLabels, List.filter_cons, hb, hint]

/-- C1: `query_bbox` on a resident entry whose R-tree was produced by the
index build returns exactly the labels whose stored bbox intersects the
query box (closed intervals), in insertion order; and the identical query
repeated against the resulting state (after the MRU bump and
`last_accessed` refresh) returns the same list. -/
theorem queryBbox_exact (st : SIM) (key : String) (li : LabelIndex) (q : BBox)
    (now now₂ : ℚ)
    (hres : alookup st.indexes key = some li)
    (hbuilt : buildRtreeAux 0 li.labels = .ok li.rtree) :
    (st.queryBbox key q now).1 = intersectingLabels li.labels q ∧
    ((st.queryBbox key q now).2.queryBbox key q now₂).1 = (st.queryBbox key q now).1 := by
  have hchar : ∀ (rt : RTree), buildRtreeAux 0 li.labels = .ok rt →
      (rtreeIntersection rt q).filterMap (fun i => li.labels[i]?) =
        intersectingLabels li.labels q := by
    intro rt hrt
    have := rtree_filterMap_eq q li.labels [] rt hrt
    simpa using this
  have hq : st.queryBbox key q now =
      ((rtreeIntersection li.rtree q).filterMap (fun i => li.labels[i]?),
        { maxIndexes := st.maxIndexes, maxMemoryMb := st.maxMemoryMb,
          indexes := aerase st.indexes key ++ [(key, { li with lastAccessed := now })] }) := by
    rw [SIM.queryBbox, hres]
  constructor
  · rw [hq]
    exact hchar _ hbuilt
  · rw [hq, SIM.queryBbox]
    simp only [alookup_bump]

/-- Witness for C1: a two-point entry queried with the box (-1,-1)-(1,1). -/
theorem queryBbox_exact_witness :
    alookup (SIM.mk 50 8192 [("a/b.json.gz",
        LabelIndex.mk "a/b.json.gz"
          [.dict [("position", .dict [("x", .num 0), ("y", .num 0)])],
           .dict [("position", .dict [("x", .num 10), ("y", .num 10)])]]
          [(0, ⟨0, 0, 0, 0⟩), (1, ⟨10, 10, 10, 10⟩)] 2 0 0)]).indexes
      "a/b.json.gz" = some (LabelIndex.mk "a/b.json.gz"
          [.dict [("position", .dict [("x", .num 0), ("y", .num 0)])],
           .dict [("position", .dict [("x", .num 10), ("y", .num 10)])]]
          [(0, ⟨0, 0, 0, 0⟩), (1, ⟨10, 10, 10, 10⟩)] 2 0 0) ∧
    ((SIM.mk 50 8192 [("a/b.json.gz", LabelIndex.mk "a/b.json.gz"
          [.dict [("position", .dict [("x", .num 0), ("y", .num 0)])],
           .dict [("position", .dict [("x", .num 10), ("y", .num 10)])]]
          [(0, ⟨0, 0, 0, 0⟩), (1, ⟨10, 10, 10, 10⟩)] 2 0 0)]).queryBbox
        "a/b.json.gz" ⟨-1, -1, 1, 1⟩ 1).1 =
      intersectingLabels
        [.dict [("position", .dict [("x", .num 0), ("y", .num 0)])],
         .dict [("position", .dict [("x", .num 10), ("y", .num 10)])]] ⟨-1, -1, 1, 1⟩ :=
  ⟨rfl,
    (queryBbox_exact
      (SIM.mk 50 8192 [("a/b.json.gz", LabelIndex.mk "a/b.json.gz"
          [.dict [("position", .dict [("x", .num 0), ("y", .num 0)])],
           .dict [("position", .dict [("x", .num 10), ("y", .num 10)])]]
          [(0, ⟨0, 0, 0, 0⟩), (1, ⟨10, 10, 10, 10⟩)] 2 0 0)])
      "a/b.json.gz"
      (LabelIndex.mk "a/b.json.gz"
          [.dict [("position", .dict [("x", .num 0), ("y", .num 0)])],
           .dict [("position", .dict [("x", .num 10), ("y", .num 10)])]]
          [(0, ⟨0, 0, 0, 0⟩), (1, ⟨10, 10, 10, 10⟩)] 2 0 0)
      ⟨-1, -1, 1, 1⟩ 1 2 rfl rfl).1⟩

/-! Memory-accounting lemmas for the index tier (C3, C7, C9). -/

theorem totalMem_nil : totalMem [] = 0 := rfl

theorem totalMem_cons (e : String × LabelIndex) (l : List (String × LabelIndex)) :
    totalMem (e :: l) = e.2.memoryEstimateMb + totalMem l := by
  simp [totalMem]

theorem totalMem_append (l₁ l₂ : List (String × LabelIndex)) :
    totalMem (l₁ ++ l₂) = totalMem l₁ + totalMem l₂ := by
  simp [totalMem]

theorem totalMem_nonneg {l : List (String × LabelIndex)}
    (h : ∀ e ∈ l, 0 ≤ e.2.memoryEstimateMb) : 0 ≤ totalMem l := by
  induction l with
  | nil => simp [totalMem]
  | cons e rest ih =>
      rw [totalMem_cons]
      have h1 := h e (List.mem_cons_self _ _)
      have h2 := ih (fun e' he' => h e' (List.mem_cons_of_mem _ he'))
      linarith

theorem totalMem_sublist_le {l₁ l₂ : List (String × LabelIndex)}
    (hs : l₁.Sublist l₂) (h : ∀ e ∈ l₂, 0 ≤ e.2.memoryEstimateMb) :
    totalMem l₁ ≤ totalMem l₂ := by
  induction hs with
  | slnil => exact le_refl _
  | cons e hs' ih =>
      rw [totalMem_cons]
      have h0 := h e (List.mem_cons_self _ _)
      have := ih (fun e' he' => h e' (List.mem_cons_of_mem _ he'))
      linarith
  | cons₂ e hs' ih =>
      rw [totalMem_cons, totalMem_cons]
      have := ih (fun e' he' => h e' (List.mem_cons_of_mem _ he'))
      linarith

theorem totalMem_aerase_add_le {l : List (String × LabelIndex)} {k : String}
    {v : LabelIndex} (hnn : ∀ e ∈ l, 0 ≤ e.2.memoryEstimateMb)
    (h : alookup l k = some v) :
    totalMem (aerase l k) + v.memoryEstimateMb ≤ totalMem l := by
  induction l with
  | nil => cases h
  | cons e rest ih =>
      obtain ⟨k₀, v₀⟩ := e
      rw [alookup] at h
      by_cases he : k₀ = k
      · rw [if_pos he] at h
        injection h with h'
        subst h'
        subst he
        rw [totalMem_cons]
        simp only [aerase, List.filter_cons]
        rw [if_neg (by simp)]
        have hsub : totalMem (List.filter (fun e => decide (e.1 ≠ k₀)) rest) ≤ totalMem rest :=
          totalMem_sublist_le (List.filter_sublist rest)
            (fun e' he' => hnn e' (List.mem_cons_of_mem _ he'))
        linarith
      · rw [if_neg he] at h
        simp only [aerase, List.filter_cons]
        rw [if_pos (by simpa using he)]
        rw [totalMem_cons, totalMem_cons]
        have hih := ih (fun e' he' => hnn e' (List.mem_cons_of_mem _ he')) h
        simp only [aerase] at hih
        linarith

theorem length_aerase_add_one_le {α : Type} {l : List (String × α)} {k : String}
    {v : α} (h : alookup l k = some v) :
    (aerase l k).length + 1 ≤ l.length := by
  induction l with
  | nil => cases h
  | cons e rest ih =>
      obtain ⟨k₀, v₀⟩ := e
      rw [alookup] at h
      by_cases he : k₀ = k
      · simp only [aerase, List.filter_cons]
        rw [if_neg (by simpa using he)]
        have hsub : (aerase rest k).length ≤ rest.length := (aerase_sublist rest k).length_le
        simpa [aerase] using Nat.add_le_add_right hsub 1
      · rw [if_neg he] at h
        simp only [aerase, List.filter_cons]
        rw [if_pos (by simpa using he)]
        simpa [aerase] using ih h

/-- The eviction loop keeps a suffix of the (LRU-front) list. -/
theorem evictGo_sublist (mi : Nat) (mm : ℚ) :
    ∀ (l : List (String × LabelIndex)) (total : ℚ),
      (evictGo mi mm l total).Sublist l := by
  intro l
  induction l with
  | nil => intro total; rw [evictGo]
  | cons e rest ih =>
      intro total
      rw [evictGo]
      by_cases hc : rest.length + 1 > mi ∨ total > mm
      · rw [if_pos hc]
        exact (ih _).trans (List.sublist_cons_self _ _)
      · rw [if_neg hc]

/-- After the eviction loop, both §4.2 bounds hold (the memory bound needs
`0 ≤ max_memory_mb`, for the case where everything was dropped). -/
theorem evictGo_bounds (mi : Nat) (mm : ℚ) (hmm : 0 ≤ mm) :
    ∀ (l : List (String × LabelIndex)) (total : ℚ), total = totalMem l →
      (evictGo mi mm l total).length ≤ mi ∧ totalMem (evictGo mi mm l total) ≤ mm := by
  intro l
  induction l with
  | nil =>
      intro total htot
      rw [evictGo]
      exact ⟨Nat.zero_le _, by simpa [totalMem] using hmm⟩
  | cons e rest ih =>
      intro total htot
      rw [evictGo]
      by_cases hc : rest.length + 1 > mi ∨ total > mm
      · rw [if_pos hc]
        refine ih _ ?_
        rw [htot, totalMem_cons]
        ring
      · rw [if_neg hc]
        push_neg at hc
        exact ⟨hc.1, htot ▸ hc.2⟩

/-- When the newest (last) entry alone exceeds the memory bound and every
other entry has a nonnegative estimate, the eviction loop empties the
cache — including the entry just inserted. -/
theorem evictGo_drains (mi : Nat) (mm : ℚ) (k : String) (li : LabelIndex)
    (hover : li.memoryEstimateMb > mm) :
    ∀ (pre : List (String × LabelIndex)),
      (∀ e ∈ pre, 0 ≤ e.2.memoryEstimateMb) →
      evictGo mi mm (pre ++ [(k, li)]) (totalMem (pre ++ [(k, li)])) = [] := by
  intro pre
  induction pre with
  | nil =>
      intro _
      rw [List.nil_append, evictGo]
      rw [if_pos (Or.inr (by rw [totalMem_cons, totalMem_nil]; linarith))]
      rw [evictGo]
  | cons e rest ih =>
      intro hnn
      rw [List.cons_append, evictGo]
      have hpos : totalMem (e :: (rest ++ [(k, li)])) > mm := by
        rw [totalMem_cons, totalMem_append, totalMem_cons, totalMem_nil]
        have h0 := hnn e (List.mem_cons_self _ _)
        have h1 : 0 ≤ totalMem rest :=
          totalMem_nonneg (fun e' he' => hnn e' (List.mem_cons_of_mem _ he'))
        linarith
      rw [if_pos (Or.inr hpos)]
      have harg : totalMem (e :: (rest ++ [(k, li)])) - e.2.memoryEstimateMb =
          totalMem (rest ++ [(k, li)]) := by
        rw [totalMem_cons]; ring
      rw [harg]
      exact ih (fun e' he' => hnn e' (List.mem_cons_of_mem _ he'))

/-- Every index `_build_index` produces has a nonnegative memory estimate
(a file size scaled by a positive constant). -/
theorem buildIndex_mem_nonneg {key : String} {file : LocalFile} {now : ℚ}
    {li : LabelIndex} (h : buildIndex key file now = .ok li) :
    0 ≤ li.memoryEstimateMb := by
  rw [buildIndex] at h
  cases hit : (extractLabels file.data).iter with
  | error e => rw [hit] at h; exact absurd h (by simp [bind, Except.bind])
  | ok labels =>
      rw [hit] at h
      simp only [bind, Except.bind] at h
      cases hrt : buildRtreeAux 0 labels with
      | error e => rw [hrt] at h; exact absurd h (by simp)
      | ok rt =>
          rw [hrt] at h
          injection h with h'
          subst h'
          by_cases hgz : file.isGz = true
      <;> simp only [hgz]
      <;> positivity

/-- An MRU bump that keeps the entry's memory estimate preserves the
nonnegativity of estimates, the entry count, and the memory total. -/
theorem bump_preserve {l : List (String × LabelIndex)} {k : String}
    {li li' : LabelIndex}
    (hres : alookup l k = some li)
    (hm : li'.memoryEstimateMb = li.memoryEstimateMb)
    (hnn : ∀ e ∈ l, 0 ≤ e.2.memoryEstimateMb) :
    (∀ e ∈ aerase l k ++ [(k, li')], 0 ≤ e.2.memoryEstimateMb) ∧
    (aerase l k ++ [(k, li')]).length ≤ l.length ∧
    totalMem (aerase l k ++ [(k, li')]) ≤ totalMem l := by
  refine ⟨?_, ?_, ?_⟩
  · intro e he
    rcases List.mem_append.mp he with h1 | h2
    · exact hnn e ((aerase_sublist l k).subset h1)
    · have he' : e = (k, li') := by simpa using h2
      subst he'
      have := hnn (k, li) (mem_of_alookup hres)
      simpa [hm] using this
  · rw [List.length_append]
    simpa using length_aerase_add_one_le hres
  · rw [totalMem_append, totalMem_cons, totalMem_nil]
    have h1 := totalMem_aerase_add_le hnn hres
    have h2 : (k, li').2.memoryEstimateMb = li.memoryEstimateMb := hm
    rw [h2]
    linarith

/-- One public operation on the index tier preserves: nonnegative estimates,
both §4.2 bounds, and the configured limits. Eviction happens inside the
operation itself (synchronously with the insert). -/
theorem SIM.applyOp_preserve (st : SIM) (op : SOp)
    (hmm : 0 ≤ st.maxMemoryMb) (hnn : st.memsNonneg) (hb : st.boundsOk) :
    (st.applyOp op).memsNonneg ∧ (st.applyOp op).boundsOk ∧
    (st.applyOp op).maxIndexes = st.maxIndexes ∧
    (st.applyOp op).maxMemoryMb = st.maxMemoryMb := by
  obtain ⟨hlen, htot⟩ := hb
  cases op with
  | build k f n =>
      cases hlk : alookup st.indexes k with
      | some li =>
          have hstep : st.applyOp (.build k f n) =
              SIM.mk st.maxIndexes st.maxMemoryMb
                (aerase st.indexes k ++ [(k, { li with lastAccessed := n })]) := by
            rw [SIM.applyOp, SIM.getOrBuild, hlk]
          rw [hstep]
          obtain ⟨p1, p2, p3⟩ :=
            @bump_preserve st.indexes k li { li with lastAccessed := n } hlk rfl hnn
          exact ⟨p1, ⟨le_trans p2 hlen, le_trans p3 htot⟩, rfl, rfl⟩
      | none =>
          cases hbd : buildIndex k f n with
          | error e =>
              have hstep : st.applyOp (.build k f n) = st := by
                simp only [SIM.applyOp, SIM.getOrBuild, hlk, hbd, bind, Except.bind]
              rw [hstep]
              exact ⟨hnn, ⟨hlen, htot⟩, rfl, rfl⟩
          | ok li =>
              have hstep : st.applyOp (.build k f n) =
                  SIM.mk st.maxIndexes st.maxMemoryMb
                    (evictGo st.maxIndexes st.maxMemoryMb
                      (st.indexes ++ [(k, li)]) (totalMem (st.indexes ++ [(k, li)]))) := by
                simp only [SIM.applyOp, SIM.getOrBuild, hlk, hbd, bind, Except.bind,
                  SIM.evictIfNeeded]
              rw [hstep]
              have hnn' : ∀ e ∈ st.indexes ++ [(k, li)], 0 ≤ e.2.memoryEstimateMb := by
                intro e he
                rcases List.mem_append.mp he with h1 | h2
                · exact hnn e h1
                · have he' : e = (k, li) := by simpa using h2
                  subst he'
                  exact buildIndex_mem_nonneg hbd
              refine ⟨?_, ?_, rfl, rfl⟩
              · intro e he
                exact hnn' e ((evictGo_sublist _ _ _ _).subset he)
              · exact evictGo_bounds st.maxIndexes st.maxMemoryMb hmm _ _ rfl
  | query k q n =>
      cases hlk : alookup st.indexes k with
      | none =>
          have hstep : st.applyOp (.query k q n) = st := by
            rw [SIM.applyOp, SIM.queryBbox, hlk]
          rw [hstep]
          exact ⟨hnn, ⟨hlen, htot⟩, rfl, rfl⟩
      | some li =>
          have hstep : st.applyOp (.query k q n) =
              SIM.mk st.maxIndexes st.maxMemoryMb
                (aerase st.indexes k ++ [(k, { li with lastAccessed := n })]) := by
            rw [SIM.applyOp, SIM.queryBbox, hlk]
          rw [hstep]
          obtain ⟨p1, p2, p3⟩ :=
            @bump_preserve st.indexes k li { li with lastAccessed := n } hlk rfl hnn
          exact ⟨p1, ⟨le_trans p2 hlen, le_trans p3 htot⟩, rfl, rfl⟩
  | invalidate k =>
      have hstep : st.applyOp (.invalidate k) =
          SIM.mk st.maxIndexes st.maxMemoryMb (aerase st.indexes k) := by
        rw [SIM.applyOp, SIM.invalidate]
      rw [hstep]
      refine ⟨?_, ⟨?_, ?_⟩, rfl, rfl⟩
      · intro e he
        exact hnn e ((aerase_sublist _ _).subset he)
      · exact le_trans (aerase_sublist st.indexes k).length_le hlen
      · exact le_trans (totalMem_sublist_le (aerase_sublist st.indexes k) hnn) htot

/-- C3: starting from any state satisfying both §4.2 bounds (with nonnegative
per-entry estimates, as every built entry has), every sequence of
`get_or_build` / `query_bbox` / invalidation operations leaves the index
tier with `count ≤ max_indexes` and `sum(memory_estimate_mb) ≤
max_memory_mb` — eviction of the LRU entry happens synchronously inside the
inserting operation. -/
theorem indexTier_bounds (st : SIM) (ops : List SOp)
    (hmm : 0 ≤ st.maxMemoryMb) (hnn : st.memsNonneg) (hb : st.boundsOk) :
    (st.applyOps ops).boundsOk := by
  suffices h : (st.applyOps ops).memsNonneg ∧ (st.applyOps ops).boundsOk ∧
      (st.applyOps ops).maxMemoryMb = st.maxMemoryMb from h.2.1
  induction ops generalizing st with
  | nil => exact ⟨hnn, hb, rfl⟩
  | cons op rest ih =>
      rw [SIM.applyOps] at *
      simp only [List.foldl_cons]
      obtain ⟨q1, q2, q3, q4⟩ := SIM.applyOp_preserve st op hmm hnn hb
      have := ih (st.applyOp op) (q4 ▸ hmm) q1 q2
      exact ⟨this.1, this.2.1, this.2.2.trans q4⟩

/-- Witness for C3: from an empty two-slot cache, build twice and query. -/
theorem indexTier_bounds_witness :
    (0 : ℚ) ≤ (SIM.mk 50 8192 []).maxMemoryMb ∧ (SIM.mk 50 8192 []).memsNonneg ∧
    (SIM.mk 50 8192 []).boundsOk ∧
    ((SIM.mk 50 8192 []).applyOps
      [.build "a" ⟨.list [], 1048576, true⟩ 0,
       .query "a" ⟨0, 0, 1, 1⟩ 1,
       .invalidate "a"]).boundsOk :=
  ⟨by norm_num,
   fun e he => absurd he (List.not_mem_nil e),
   ⟨by simp, by norm_num [SIM.boundsOk, totalMem]⟩,
   indexTier_bounds _ _ (by norm_num) (fun e he => absurd he (List.not_mem_nil e))
     ⟨by simp, by norm_num [SIM.boundsOk, totalMem]⟩⟩

/-- C7 (counterexample): with `max_memory_mb = 1`, building an index from a
1 MiB gzipped file yields an estimate of 8 MB — exceeding the cap on its
own — yet `get_or_build` succeeds and returns the entry: there is no
OutOfMemory refusal anywhere in the build path. -/
theorem getOrBuild_no_oom_refusal :
    (buildIndex "big.json.gz" ⟨.list [], 1048576, true⟩ 0).map
        LabelIndex.memoryEstimateMb =
      .ok (((1048576 : ℕ) : ℚ) * 8 / (1024 * 1024)) ∧
    (1 : ℚ) < ((1048576 : ℕ) : ℚ) * 8 / (1024 * 1024) ∧
    ((SIM.mk 50 1 []).getOrBuild "big.json.gz" ⟨.list [], 1048576, true⟩ 0).isOk = true :=
  ⟨rfl, by norm_num, rfl⟩

/-- C7 (amended): index building never refuses with OutOfMemory. Whenever
the file parses, `get_or_build` on a miss returns the freshly built entry —
even when its memory estimate alone exceeds `max_memory_mb` — and runs the
eviction loop on the inserted state instead of failing. -/
theorem getOrBuild_accepts_any_estimate (st : SIM) (key : String)
    (file : LocalFile) (now : ℚ) (li : LabelIndex)
    (habs : alookup st.indexes key = Option.none)
    (hbuild : buildIndex key file now = .ok li) :
    st.getOrBuild key file now =
      .ok (li, SIM.evictIfNeeded
        { st with indexes := st.indexes ++ [(key, li)] }) := by
  rw [SIM.getOrBuild, habs]
  simp only [hbuild, bind, Except.bind]

/-- Witness for the amended C7 theorem: the oversized 1 MiB-gzip build is
accepted and returned. -/
theorem getOrBuild_accepts_any_estimate_witness :
    alookup (SIM.mk 50 1 []).indexes "big.json.gz" = Option.none ∧
    ((SIM.mk 50 1 []).getOrBuild "big.json.gz" ⟨.list [], 1048576, true⟩ 0).isOk = true := by
  refine ⟨rfl, ?_⟩
  rw [getOrBuild_accepts_any_estimate (SIM.mk 50 1 []) "big.json.gz"
    ⟨.list [], 1048576, true⟩ 0
    (LabelIndex.mk "big.json.gz" [] [] 0 (((1048576 : ℕ) : ℚ) * 8 / (1024 * 1024)) 0)
    rfl rfl]
  rfl

/-- C9: when a successfully built entry's estimate alone exceeds
`max_memory_mb`, `get_or_build` still returns that entry while the
synchronous eviction loop drains the whole cache (every other entry first,
then the new entry itself); an immediate `query_bbox` for the same key then
returns the empty list. -/
theorem oversized_entry_returned_then_evicted (st : SIM) (key : String)
    (file : LocalFile) (now now₂ : ℚ) (li : LabelIndex) (q : BBox)
    (hnn : st.memsNonneg)
    (habs : alookup st.indexes key = Option.none)
    (hbuild : buildIndex key file now = .ok li)
    (hover : li.memoryEstimateMb > st.maxMemoryMb) :
    st.getOrBuild key file now = .ok (li, { st with indexes := [] }) ∧
    (SIM.queryBbox { st with indexes := [] } key q now₂).1 = [] := by
  constructor
  · have hstep : st.getOrBuild key file now =
        .ok (li, SIM.evictIfNeeded
          { st with indexes := st.indexes ++ [(key, li)] }) := by
      rw [SIM.getOrBuild, habs]
      simp only [hbuild, bind, Except.bind]
    rw [hstep, SIM.evictIfNeeded]
    simp only [evictGo_drains st.maxIndexes st.maxMemoryMb key li hover st.indexes hnn]
  · rw [SIM.queryBbox]
    rfl

/-- Witness for C9 at the oversized 1 MiB-gzip build. -/
theorem oversized_entry_returned_then_evicted_witness :
    buildIndex "big.json.gz" (LocalFile.mk (.list []) 1048576 true) 0 =
      .ok (LabelIndex.mk "big.json.gz" [] [] 0
        (((1048576 : ℕ) : ℚ) * 8 / (1024 * 1024)) 0) ∧
    (LabelIndex.mk "big.json.gz" [] [] 0
        (((1048576 : ℕ) : ℚ) * 8 / (1024 * 1024)) 0).memoryEstimateMb >
      (SIM.mk 50 1 []).maxMemoryMb ∧
    (SIM.mk 50 1 []).getOrBuild "big.json.gz" (LocalFile.mk (.list []) 1048576 true) 0 =
      .ok (LabelIndex.mk "big.json.gz" [] [] 0
        (((1048576 : ℕ) : ℚ) * 8 / (1024 * 1024)) 0, SIM.mk 50 1 []) ∧
    ((SIM.mk 50 1 []).queryBbox "big.json.gz" ⟨0, 0, 1, 1⟩ 2).1 = [] := by
  have hover : (LabelIndex.mk "big.json.gz" [] [] 0
      (((1048576 : ℕ) : ℚ) * 8 / (1024 * 1024)) 0).memoryEstimateMb >
      (SIM.mk 50 1 []).maxMemoryMb := by
    show (1 : ℚ) < ((1048576 : ℕ) : ℚ) * 8 / (1024 * 1024)
    norm_num
  have h := oversized_entry_returned_then_evicted (SIM.mk 50 1 []) "big.json.gz"
    (LocalFile.mk (.list []) 1048576 true) 0 2
    (LabelIndex.mk "big.json.gz" [] [] 0 (((1048576 : ℕ) : ℚ) * 8 / (1024 * 1024)) 0)
    ⟨0, 0, 1, 1⟩ (by intro e he; cases he) rfl rfl hover
  exact ⟨rfl, hover, h.1, h.2⟩

/-! Size-accounting lemmas for the disk tier (C2, C5, C6). -/

theorem sumSizes_nil : sumSizes [] = 0 := rfl

theorem sumSizes_cons (e : String × Nat) (l : List (String × Nat)) :
    sumSizes (e :: l) = e.2 + sumSizes l := by
  simp [sumSizes]

theorem sumSizes_append (l₁ l₂ : List (String × Nat)) :
    sumSizes (l₁ ++ l₂) = sumSizes l₁ + sumSizes l₂ := by
  simp [sumSizes]

theorem sumSizes_sublist_le {l₁ l₂ : List (String × Nat)} (hs : l₁.Sublist l₂) :
    sumSizes l₁ ≤ sumSizes l₂ := by
  induction hs with
  | slnil => exact le_refl _
  | cons e hs' ih => rw [sumSizes_cons]; omega
  | cons₂ e hs' ih => rw [sumSizes_cons, sumSizes_cons]; omega

theorem sumSizes_aerase_add_le {l : List (String × Nat)} {k : String} {v : Nat}
    (h : alookup l k = some v) : sumSizes (aerase l k) + v ≤ sumSizes l := by
  induction l with
  | nil => cases h
  | cons e rest ih =>
      obtain ⟨k₀, v₀⟩ := e
      rw [alookup] at h
      by_cases he : k₀ = k
      · rw [if_pos he] at h
        injection h with h'
        subst h'
        subst he
        rw [sumSizes_cons]
        simp only [aerase, List.filter_cons]
        rw [if_neg (by simp)]
        have hsub : sumSizes (List.filter (fun e => decide (e.1 ≠ k₀)) rest) ≤ sumSizes rest :=
          sumSizes_sublist_le (List.filter_sublist rest)
        omega
      · rw [if_neg he] at h
        simp only [aerase, List.filter_cons]
        rw [if_pos (by simpa using he)]
        rw [sumSizes_cons, sumSizes_cons]
        have hih := ih h
        simp only [aerase] at hih
        omega

theorem bumpIfTracked_sum_le (l : List (String × Nat)) (k : String) :
    sumSizes (bumpIfTracked l k) ≤ sumSizes l := by
  rw [bumpIfTracked]
  cases hlk : alookup l k with
  | none => exact le_refl _
  | some v =>
      rw [sumSizes_append, sumSizes_cons, sumSizes_nil]
      have := sumSizes_aerase_add_le hlk
      omega

theorem bevictGo_bound (cd : String) (maxB : Nat) :
    ∀ (l : List (String × Nat)) (total : Nat) (fs : FS), total = sumSizes l →
      sumSizes (bevictGo cd maxB l total fs).1 ≤ maxB := by
  intro l
  induction l with
  | nil =>
      intro total fs htot
      rw [bevictGo]
      exact Nat.zero_le maxB
  | cons e rest ih =>
      obtain ⟨k, n⟩ := e
      intro total fs htot
      rw [bevictGo]
      by_cases hc : total > maxB
      · rw [if_pos hc]
        refine ih _ _ ?_
        rw [htot, sumSizes_cons]
        omega
      · rw [if_neg hc]
        show sumSizes ((k, n) :: rest) ≤ maxB
        omega

theorem fsExists_fsWrite_self (fs : FS) (pth : String) (n : Nat) :
    fsExists (fsWrite fs pth n) pth = true := by
  simp [fsExists, fsWrite, alookup]

theorem alookup_fsWrite_ne (fs : FS) {pth pth' : String} (n : Nat)
    (h : pth' ≠ pth) : alookup (fsWrite fs pth n) pth' = alookup fs pth' := by
  rw [fsWrite, alookup, if_neg (fun hc => h hc.symm)]
  exact alookup_aerase_ne fs h

/-- One public operation on the disk tier keeps `sum(sizes) ≤ cache_max_bytes`
and never changes the configured bound. -/
theorem BlobCache.applyOp_step (st : BlobCache) (op : BOp)
    (h : sumSizes st.files ≤ st.maxBytes) :
    sumSizes (st.applyOp op).files ≤ st.maxBytes ∧
    (st.applyOp op).maxBytes = st.maxBytes := by
  cases op with
  | get k dl =>
      cases hex : fsExists st.fs (st.localPath k) with
      | true =>
          have hstep : st.applyOp (.get k dl) =
              { st with files := bumpIfTracked st.files k } := by
            simp only [BlobCache.applyOp, BlobCache.get, hex, if_true]
          rw [hstep]
          exact ⟨le_trans (bumpIfTracked_sum_le st.files k) h, rfl⟩
      | false =>
          cases dl with
          | failure p =>
              have hstep : st.applyOp (.get k (.failure p)) =
                  { st with fs := fsWrite st.fs (st.localPath k ++ ".tmp") p } := by
                simp only [BlobCache.applyOp, BlobCache.get, hex, Bool.false_eq_true,
                  if_false]
              rw [hstep]
              exact ⟨h, rfl⟩
          | success n =>
              have hstep : st.applyOp (.get k (.success n)) =
                  BlobCache.evictIfNeeded
                    (BlobCache.mk st.cacheDir st.maxBytes
                      (bumpIfTracked (setEntry st.files k n) k)
                      (fsRename (fsWrite st.fs (st.localPath k ++ ".tmp") n)
                        (st.localPath k ++ ".tmp") (st.localPath k))) := by
                simp only [BlobCache.applyOp, BlobCache.get, hex, Bool.false_eq_true,
                  if_false]
              rw [hstep, BlobCache.evictIfNeeded]
              exact ⟨bevictGo_bound _ _ _ _ _ rfl, rfl⟩
  | remove k =>
      cases hex : fsExists st.fs (st.localPath k) with
      | false =>
          have hstep : st.applyOp (.remove k) = st := by
            simp only [BlobCache.applyOp, BlobCache.remove, hex, Bool.false_eq_true,
              if_false]
          rw [hstep]
          exact ⟨h, rfl⟩
      | true =>
          have hstep : st.applyOp (.remove k) =
              { st with fs := fsErase st.fs (st.localPath k),
                        files := if (alookup st.files k).isSome then aerase st.files k
                                 else st.files } := by
            simp only [BlobCache.applyOp, BlobCache.remove, hex, if_true]
          rw [hstep]
          refine ⟨?_, rfl⟩
          by_cases htr : (alookup st.files k).isSome
      <;> simp only [htr, if_true, if_false]
      <;> first
        | exact le_trans (sumSizes_sublist_le (aerase_sublist st.files k)) h
        | exact h

/-- C2: after any sequence of `get`/`remove` operations starting from a
state within budget, the sum of tracked sizes stays at most
`cache_max_bytes`; moreover a `get` that actually downloads (the file was
absent) restores the bound before returning, whatever the starting sum,
because eviction runs synchronously after registration. -/
theorem blobCache_disk_bound :
    (∀ (st : BlobCache) (ops : List BOp), sumSizes st.files ≤ st.maxBytes →
        sumSizes (st.applyOps ops).files ≤ st.maxBytes) ∧
    (∀ (st : BlobCache) (key : String) (n : Nat),
        fsExists st.fs (st.localPath key) = false →
        sumSizes ((st.applyOp (.get key (.success n))).files) ≤ st.maxBytes) := by
  constructor
  · intro st ops
    induction ops generalizing st with
    | nil => exact fun h => h
    | cons op rest ih =>
        intro h
        rw [BlobCache.applyOps, List.foldl_cons]
        obtain ⟨h1, h2⟩ := BlobCache.applyOp_step st op h
        have := ih (st.applyOp op) (h2 ▸ h1)
        rw [BlobCache.applyOps] at this
        exact h2 ▸ this
  · intro st key n hex
    have hstep : st.applyOp (.get key (.success n)) =
        BlobCache.evictIfNeeded
          (BlobCache.mk st.cacheDir st.maxBytes
            (bumpIfTracked (setEntry st.files key n) key)
            (fsRename (fsWrite st.fs (st.localPath key ++ ".tmp") n)
              (st.localPath key ++ ".tmp") (st.localPath key))) := by
      simp only [BlobCache.applyOp, BlobCache.get, hex, Bool.false_eq_true, if_false]
    rw [hstep, BlobCache.evictIfNeeded]
    exact bevictGo_bound _ _ _ _ _ rfl

/-- Witness for C2: two 60-byte downloads into a 100-byte cache, then a
remove, starting empty; and the unconditional post-download bound. -/
theorem blobCache_disk_bound_witness :
    (sumSizes (BlobCache.mk "/c" 100 [] []).files ≤ 100 ∧
      sumSizes ((BlobCache.mk "/c" 100 [] []).applyOps
        [.get "a" (.success 60), .get "b" (.success 60), .remove "a"]).files ≤ 100) ∧
    (fsExists (BlobCache.mk "/c" 100 [("zz", 999)] []).fs
        ((BlobCache.mk "/c" 100 [("zz", 999)] []).localPath "a") = false ∧
      sumSizes (((BlobCache.mk "/c" 100 [("zz", 999)] []).applyOp
        (.get "a" (.success 60))).files) ≤ 100) :=
  ⟨⟨by decide, blobCache_disk_bound.1 _ _ (by decide)⟩,
   ⟨rfl, blobCache_disk_bound.2 _ "a" 60 rfl⟩⟩

/-- C5 (counterexample): after a download for `a/b.json.gz` fails in an
empty cache, the temporary file `cache_dir/a/b.json.gz.tmp` is still on
disk — `_download` has no cleanup handler, so "the temporary file is
deleted" is false. -/
theorem download_failure_tmp_not_deleted :
    fsExists ((BlobCache.mk "/data/label-cache" 1000 [] []).get "a/b.json.gz"
        (.failure 0)).2.fs "/data/label-cache/a/b.json.gz.tmp" = true := rfl

/-- C5 (amended): when the download step fails, `get` returns the error,
the LRU tracking is unchanged and the key is not registered, and the only
filesystem change is that the temporary file `cache_dir/key.tmp` is LEFT
BEHIND (created by `open(tmp, "wb")`, never deleted). -/
theorem download_failure_state (st : BlobCache) (key : String) (p : Nat)
    (habs : fsExists st.fs (st.localPath key) = false) :
    st.get key (.failure p) =
      (.error (), { st with fs := fsWrite st.fs (st.localPath key ++ ".tmp") p }) ∧
    (st.get key (.failure p)).2.files = st.files ∧
    fsExists (st.get key (.failure p)).2.fs (st.localPath key ++ ".tmp") = true ∧
    ∀ pth, pth ≠ st.localPath key ++ ".tmp" →
      alookup (st.get key (.failure p)).2.fs pth = alookup st.fs pth := by
  have hstep : st.get key (.failure p) =
      (.error (), { st with fs := fsWrite st.fs (st.localPath key ++ ".tmp") p }) := by
    simp only [BlobCache.get, habs, Bool.false_eq_true, if_false]
  refine ⟨hstep, ?_, ?_, ?_⟩
  · rw [hstep]
  · rw [hstep]
    exact fsExists_fsWrite_self _ _ _
  · intro pth hne
    rw [hstep]
    exact alookup_fsWrite_ne st.fs p hne

/-- Witness for the amended C5 theorem in an empty cache. -/
theorem download_failure_state_witness :
    fsExists (BlobCache.mk "/data/label-cache" 1000 [] []).fs
      ((BlobCache.mk "/data/label-cache" 1000 [] []).localPath "a/b.json.gz") = false ∧
    ((BlobCache.mk "/data/label-cache" 1000 [] []).get "a/b.json.gz" (.failure 0)).2.files =
      (BlobCache.mk "/data/label-cache" 1000 [] []).files :=
  ⟨rfl, (download_failure_state (BlobCache.mk "/data/label-cache" 1000 [] [])
    "a/b.json.gz" 0 rfl).2.1⟩

/-- C6: at the failing input — `a/b.json.gz` tracked with 5 bytes while its
local file is missing — `remove` returns without error but leaves the key
tracked: `os.remove` raises `OSError`, the `except` swallows it, and the
tracking-record deletion sits after the raise inside the `try`, so it is
skipped. The claim says the key is no longer tracked. -/
theorem remove_missing_file_keeps_tracking :
    BlobCache.remove (BlobCache.mk "/data/label-cache" 1000 [("a/b.json.gz", 5)] [])
        "a/b.json.gz" =
      BlobCache.mk "/data/label-cache" 1000 [("a/b.json.gz", 5)] [] ∧
    alookup (BlobCache.remove
        (BlobCache.mk "/data/label-cache" 1000 [("a/b.json.gz", 5)] [])
        "a/b.json.gz").files "a/b.json.gz" = some 5 :=
  ⟨rfl, rfl⟩

/-- C8 (counterexample): `float("nan")` succeeds in Python, so the bbox
string `"nan,0,1,1"` parses as four floats and `get_labels` does NOT answer
400 — it proceeds with a non-finite coordinate. The claimed "400 iff not
four floats or any not finite" is therefore false: there is no finiteness
check. -/
theorem bbox_nan_not_rejected :
    getLabelsBboxStep "nan,0,1,1" = .ok [.nan, .finite 0, .finite 1, .finite 1] ∧
    PyFloat.nan.isFinite = false :=
  ⟨rfl, rfl⟩

/-- C8 (amended): a `/labels` request with a bbox parameter is rejected
with 400 exactly when the string does not split into exactly four Python
float literals; when it does, the query proceeds with those four parsed
values — finite or not (nan and inf are accepted). -/
theorem bbox_parse_four_floats (s : String) :
    (∀ parts, getLabelsBboxStep s = .ok parts ↔
      (parseBboxParts s = some parts ∧ parts.length = 4)) ∧
    (getLabelsBboxStep s = .error () ↔
      ¬ ∃ parts, parseBboxParts s = some parts ∧ parts.length = 4) := by
  constructor
  · intro parts
    cases hp : parseBboxParts s with
    | none =>
        have hstep : getLabelsBboxStep s = .error () := by
          rw [getLabelsBboxStep, hp]
        rw [hstep]
        constructor
        · intro h; cases h
        · rintro ⟨h1, -⟩
          cases h1
    | some l =>
        have hstep : getLabelsBboxStep s =
            (if l.length = 4 then .ok l else .error ()) := by
          rw [getLabelsBboxStep, hp]
        rw [hstep]
        by_cases hl : l.length = 4
        · rw [if_pos hl]
          constructor
          · intro h
            injection h with h'
            subst h'
            exact ⟨rfl, hl⟩
          · rintro ⟨h1, h2⟩
            injection h1 with h'
            subst h'
            rfl
        · rw [if_neg hl]
          constructor
          · intro h; cases h
          · rintro ⟨h1, h2⟩
            injection h1 with h'
            subst h'
            exact absurd h2 hl
  · cases hp : parseBboxParts s with
    | none =>
        have hstep : getLabelsBboxStep s = .error () := by
          rw [getLabelsBboxStep, hp]
        rw [hstep]
        constructor
        · rintro - ⟨parts, h1, -⟩
          cases h1
        · intro h
          rfl
    | some l =>
        have hstep : getLabelsBboxStep s =
            (if l.length = 4 then .ok l else .error ()) := by
          rw [getLabelsBboxStep, hp]
        rw [hstep]
        by_cases hl : l.length = 4
        · rw [if_pos hl]
          constructor
          · intro h; cases h
          · intro h
            exact absurd ⟨l, rfl, hl⟩ h
        · rw [if_neg hl]
          constructor
          · rintro - ⟨parts, h1, h2⟩
            injection h1 with h'
            subst h'
            exact hl h2
          · intro h
            rfl

/-- C10 (counterexample): with `api_key = "k"` and a jwt secret configured,
a request on `/labels` carrying the invalid bearer token of an expired
session and `token=k` is refused with 401 "Token expired":
`ExpiredSignatureError` answers before the query-parameter fallback is
consulted, even though the token parameter matches the api_key. -/
theorem token_param_blocked_by_expired_bearer :
    authDispatch "k" "s" (fun _ => .expired) "/labels" "Bearer t" "k" =
      .unauthorized "Token expired" := rfl

/-- C10 (amended): with a static api_key configured, a request on a
non-open path whose `token` query parameter equals the api_key is
authorized provided JWT validation does not intercept it first: in
particular whenever the request has no `Bearer ` Authorization header, or
no jwt_secret is configured, or the bearer token fails validation with a
generic invalid-token error. (A bearer token that is expired, or valid with
a wrong issuer, is answered 401 before the fallback.) -/
theorem token_param_fallback (apiKey jwtSecret : String)
    (decode : String → JwtOutcome) (path authHeader tokenParam : String)
    (hkey : apiKey ≠ "")
    (hopen : path ∉ openPaths)
    (htok : tokenParam = apiKey)
    (hjwt : hasBearer authHeader = false ∨ jwtSecret = "" ∨
      decode (bearerToken authHeader) = .invalid) :
    authDispatch apiKey jwtSecret decode path authHeader tokenParam = .pass := by
  rw [authDispatch]
  rw [if_neg (fun hc => hkey hc.2), if_neg hopen]
  have hfall : (if apiKey ≠ "" ∧ tokenParam = apiKey then AuthResult.pass
      else AuthResult.unauthorized "Unauthorized") = AuthResult.pass :=
    if_pos ⟨hkey, htok⟩
  cases hb : hasBearer authHeader with
  | false =>
      rw [if_neg (by simp)]
      exact hfall
  | true =>
      rw [if_pos rfl]
      by_cases htk : bearerToken authHeader = apiKey
      · rw [if_pos ⟨hkey, htk⟩]
      · rw [if_neg (fun hc => htk hc.2)]
        rcases hjwt with hnb | hjs | hinv
        · rw [hnb] at hb; cases hb
        · rw [if_neg (by simp [hjs])]
          exact hfall
        · by_cases hjs : jwtSecret = ""
          · rw [if_neg (by simp [hjs])]
            exact hfall
          · rw [if_pos hjs, hinv]
            exact hfall

/-- Witness for the amended C10 theorem: no Authorization header at all,
matching `token` parameter. -/
theorem token_param_fallback_witness :
    ("k" : String) ≠ "" ∧ "/labels" ∉ openPaths ∧
    authDispatch "k" "s" (fun _ => .invalid) "/labels" "" "k" = .pass :=
  ⟨by decide, by decide,
    token_param_fallback "k" "s" (fun _ => .invalid) "/labels" "" "k"
      (by decide) (by decide) rfl (Or.inl rfl)⟩

end LabelServer
